import Mathlib

/-!
Verification development for the Baykugan/RubiksCube repository.

Shallow embedding of the cube core:
* `piece.py`          — `Piece`, `Piece.rotate`, `Piece.do_rotation`
* `three_by_three.py` — the 3x3x3 layer table and `do_move`
* `rubiks_cube.py`    — `rotate_layer`, `reverse_sequence`, `simplify_sequence`,
                        `get_sequence`, `do_sequence`, `solve`, the face readouts
                        and `is_solved`

The grid `piece_list[i][j][k]` (axes y, z, x; each 0..2) is embedded as a
function from the flattened slot index `9*i + 3*j + k : Fin 27` to the piece
currently occupying that slot.  Pieces are value records (id plus the six
face colors); mutation in the source becomes functional state update here.

`Utilities.shiftList` is imported by `rubiks_cube.py` but `Utilities.py` is
not among the provided sources; it is modelled from the spec (see
`shiftList` below).
-/

/-- The apostrophe character (used pervasively by the move notation). -/
def qc : Char := Char.ofNat 39

/-- The apostrophe as a one-character string. -/
def qs : String := String.mk [qc]

/-- The six sticker colors (`piece.py` lines 42-49; the `.ljust(6)` padding of
the color words is cosmetic and the spec directs treating colors as an enum). -/
inductive Color where
  | white | orange | green | red | blue | yellow
deriving DecidableEq, Repr

/-- A cube piece: unique id plus a mapping from each face label U,L,F,R,B,D to
a color (`piece.py` `Piece.__init__`). -/
structure Piece where
  id : Nat
  U : Color
  L : Color
  F : Color
  R : Color
  B : Color
  D : Color
deriving DecidableEq, Repr

namespace Piece

/-- `Piece.__init__` face/color assignment (`piece.py` lines 42-49). -/
def init (i : Nat) : Piece :=
  { id := i, U := .white, L := .orange, F := .green, R := .red, B := .blue, D := .yellow }

/-- One forward application of the axis cycle in `Piece.do_rotation`
(`piece.py` lines 93-106):
axis X: F,U,B,D := D,F,U,B;  axis Y: L,F,R,B := F,R,B,L;  axis Z: L,U,R,D := D,L,U,R.
The axis is one of the characters X, Y, Z. -/
def axisCycle (axis : Char) (p : Piece) : Piece :=
  if axis = 'X' then { p with F := p.D, U := p.F, B := p.U, D := p.B }
  else if axis = 'Y' then { p with L := p.F, F := p.R, R := p.B, B := p.L }
  else if axis = 'Z' then { p with L := p.D, U := p.L, R := p.U, D := p.R }
  else p

/-- `Piece.do_rotation` (`piece.py` lines 83-110): performs the cycle once and,
when `prime` is set, twice more (a prime turn is the forward cycle thrice). -/
def do_rotation (p : Piece) (axis : Char) (prime : Bool) : Piece :=
  let p1 := axisCycle axis p
  if prime then axisCycle axis (axisCycle axis p1) else p1

/-- `rotation_map` (`piece.py` lines 51-61) as (negated?, axis) pairs:
U maps to Y, F to Z, L to -X, D to -Y, B to -Z, R to X, E to -Y, S to Z, M to -X.
Letters outside the table raise `KeyError` in the source; they are unreachable
from `do_sequence` (whose grammar admits only the nine letters), and the
embedding returns a junk value `(false, none-like)` folded into `rotate`. -/
def rotation_map (c : Char) : Option (Bool × Char) :=
  if c = 'U' then some (false, 'Y')
  else if c = 'F' then some (false, 'Z')
  else if c = 'L' then some (true, 'X')
  else if c = 'D' then some (true, 'Y')
  else if c = 'B' then some (true, 'Z')
  else if c = 'R' then some (false, 'X')
  else if c = 'E' then some (true, 'Y')
  else if c = 'S' then some (false, 'Z')
  else if c = 'M' then some (true, 'X')
  else none

/-- `Piece.rotate` (`piece.py` lines 66-81): resolve the letter through
`rotation_map`; a leading minus strips off and flips `prime`; then delegate to
`do_rotation`.  Unknown letters (a `KeyError` in the source, unreachable from
the move grammar) leave the piece unchanged here. -/
def rotate (p : Piece) (c : Char) (prime : Bool) : Piece :=
  match rotation_map c with
  | none => p
  | some (neg, axis) => p.do_rotation axis (if neg then !prime else prime)

end Piece

/-- The cube grid: slot `9*i + 3*j + k` holds the piece at
`piece_list[i][j][k]` (axes y, z, x). -/
def Grid := Fin 27 → Piece

instance : DecidableEq Grid := fun f g =>
  decidable_of_iff (∀ i, f i = g i) ⟨funext, fun h i => congrFun h i⟩

/-- Freshly constructed grid: `Cube.__init__` allocates pieces in (y, z, x)
order, so the piece in slot `n` carries id `n` (`rubiks_cube.py` lines 99-108). -/
def initGrid : Grid := fun i => Piece.init i.val

/-- Modelled from the spec: `Utilities.shiftList` (imported at
`rubiks_cube.py` line 21) is not among the provided sources.  Spec section 4.3
specifies the ring reassignment as a cyclic shift by `ring length / 4` slots,
forward for a normal turn and backward (negative amount) for a prime turn.
Embedded as a cyclic left rotation by the signed amount taken modulo the
length (the Python-slicing convention `l[k:] + l[:k]` for either sign). -/
def shiftList {α : Type} (l : List α) (k : Int) : List α :=
  if l.isEmpty then l else l.rotate ((k.emod l.length).toNat)

/-- The layer table of `ThreeByThree.__init__` (`three_by_three.py` lines
57-105), with `piece_list[a][b][c]` flattened to slot `9*a + 3*b + c`.
Each layer is a list of rings: a one-slot center ring followed by the
eight-slot boundary ring, in the clockwise order written in the source. -/
def layersOf (c : Char) : List (List (Fin 27)) :=
  if c = 'U' then [[4], [0, 3, 6, 7, 8, 5, 2, 1]]
  else if c = 'F' then [[10], [0, 1, 2, 11, 20, 19, 18, 9]]
  else if c = 'L' then [[12], [0, 9, 18, 21, 24, 15, 6, 3]]
  else if c = 'D' then [[22], [18, 19, 20, 23, 26, 25, 24, 21]]
  else if c = 'B' then [[16], [6, 15, 24, 25, 26, 17, 8, 7]]
  else if c = 'R' then [[14], [2, 5, 8, 17, 26, 23, 20, 11]]
  else if c = 'E' then [[13], [9, 10, 11, 14, 17, 16, 15, 12]]
  else if c = 'S' then [[13], [3, 4, 5, 14, 23, 22, 21, 12]]
  else if c = 'M' then [[13], [1, 10, 19, 22, 25, 16, 7, 4]]
  else []

/-- First index of `a` in `l` (the `enumerate` pairing used by the ring
reassignment loop in `rotate_layer`). -/
def firstIdx? {α : Type} [DecidableEq α] (a : α) : List α → Option Nat
  | [] => none
  | b :: l => if a = b then some 0 else (firstIdx? a l).map (· + 1)

/-- The shift amount of `rotate_layer` (`rubiks_cube.py` lines 151-156):
`len(ring) // 4` forward, `-len(ring) // 4` (Python floor division) for prime. -/
def shiftAmt (prime : Bool) (n : Nat) : Int :=
  if prime then Int.fdiv (-(n : Int)) 4 else Int.fdiv (n : Int) 4

/-- One ring of `Cube.rotate_layer` (`rubiks_cube.py` lines 149-162): when the
ring has more than one slot, slot `ring[i]` receives the piece previously in
`shiftList(ring, shift)[i]`; afterwards the piece now in every ring slot is
rotated by the move letter.  Ring slot lists are duplicate-free, so the
slot-wise functional update agrees with the source's in-place assignments. -/
def rotateRing (move : Char) (prime : Bool) (g : Grid) (ring : List (Fin 27)) : Grid :=
  let g1 : Grid :=
    if ring.length > 1 then
      let shifted := shiftList ring (shiftAmt prime ring.length)
      fun j => match firstIdx? j ring with
        | some i => g (shifted.getD i j)
        | none => g j
    else g
  fun j => if j ∈ ring then (g1 j).rotate move prime else g1 j

/-- `Cube.rotate_layer` applied to `layers[move]`: processes the rings of the
layer in order (`rubiks_cube.py` lines 136-162). -/
def rotate_layer (move : Char) (prime : Bool) (g : Grid) : Grid :=
  (layersOf move).foldl (rotateRing move prime) g

/-- `Cube.get_color` (`rubiks_cube.py` lines 256-270) specialised to a face
label accessor on the flattened grid. -/
def get_color (g : Grid) (i j k : Nat) (face : Char) : Color :=
  let p := g ⟨(9 * i + 3 * j + k) % 27, Nat.mod_lt _ (by decide)⟩
  if face = 'U' then p.U
  else if face = 'L' then p.L
  else if face = 'F' then p.F
  else if face = 'R' then p.R
  else if face = 'B' then p.B
  else p.D

/-- `Cube.up_layer` (`rubiks_cube.py` lines 566-578): colors U at
`(0, i, j)` for i = z-1..0, j = 0..x-1. -/
def up_layer (g : Grid) : List Color :=
  (List.range 3).reverse.flatMap fun i => (List.range 3).map fun j => get_color g 0 i j 'U'

/-- `Cube.left_layer` (`rubiks_cube.py` lines 580-592). -/
def left_layer (g : Grid) : List Color :=
  (List.range 3).flatMap fun i => (List.range 3).reverse.map fun j => get_color g i j 0 'L'

/-- `Cube.front_layer` (`rubiks_cube.py` lines 594-606). -/
def front_layer (g : Grid) : List Color :=
  (List.range 3).flatMap fun i => (List.range 3).map fun j => get_color g i 0 j 'F'

/-- `Cube.right_layer` (`rubiks_cube.py` lines 608-620). -/
def right_layer (g : Grid) : List Color :=
  (List.range 3).flatMap fun i => (List.range 3).map fun j => get_color g i j 2 'R'

/-- `Cube.back_layer` (`rubiks_cube.py` lines 622-634). -/
def back_layer (g : Grid) : List Color :=
  (List.range 3).flatMap fun i => (List.range 3).reverse.map fun j => get_color g i 2 j 'B'

/-- `Cube.down_layer` (`rubiks_cube.py` lines 636-648). -/
def down_layer (g : Grid) : List Color :=
  (List.range 3).flatMap fun i => (List.range 3).map fun j => get_color g 2 i j 'D'

/-- `Cube.is_side_solved` (`rubiks_cube.py` lines 658-669): all colors equal
the first one. -/
def is_side_solved (colors : List Color) : Bool :=
  match colors with
  | [] => true
  | c0 :: _ => colors.all fun c => c = c0

/-- `Cube.is_solved` (`rubiks_cube.py` lines 671-688). -/
def is_solved (g : Grid) : Bool :=
  [up_layer g, left_layer g, front_layer g, right_layer g, back_layer g,
   down_layer g].all is_side_solved

/-! ## String utilities (Python `str.split`, `str.strip`, `re` fragments) -/

/-- Python whitespace characters (the `\s` class for ASCII input). -/
def isPyWs (c : Char) : Bool :=
  c = ' ' || c = '\t' || c = '\n' || c = '\r' || c = Char.ofNat 11 || c = Char.ofNat 12

/-- Helper for `splitWs`: accumulates the current token (reversed). -/
def splitWsAux : List Char → List Char → List (List Char)
  | [], acc => if acc.isEmpty then [] else [acc.reverse]
  | c :: rest, acc =>
    if isPyWs c then
      if acc.isEmpty then splitWsAux rest [] else acc.reverse :: splitWsAux rest []
    else splitWsAux rest (c :: acc)

/-- Python `str.split()` with no argument: split on whitespace runs, dropping
empty pieces. -/
def splitWs (cs : List Char) : List (List Char) := splitWsAux cs []

/-- Python `" ".join(...)`. -/
def joinSpace : List (List Char) → List Char
  | [] => []
  | [t] => t
  | t :: ts => t ++ ' ' :: joinSpace ts

/-- Python `str.strip()`. -/
def pyStrip (cs : List Char) : List Char :=
  ((cs.dropWhile isPyWs).reverse.dropWhile isPyWs).reverse

/-- `re.search(r"\d+", s)`: the first maximal run of digits, if any. -/
def firstDigitRun (cs : List Char) : Option (List Char) :=
  match cs.dropWhile (fun c => !c.isDigit) with
  | [] => none
  | ds => some (ds.takeWhile Char.isDigit)

/-- `int(...)` on a digit run. -/
def digitsVal (ds : List Char) : Nat :=
  ds.foldl (fun a c => a * 10 + (c.toNat - 48)) 0

/-- Python `move[:1]`. -/
def headStr (t : List Char) : List Char := t.take 1

/-- Python `move.endswith("'")`. -/
def endsQuote (t : List Char) : Bool := t.getLast? = some qc

/-- Per-token reverse used by `Cube.reverse_sequence` (`rubiks_cube.py` line
178): drop a trailing apostrophe, otherwise append one. -/
def revTok (t : List Char) : List Char :=
  if endsQuote t then t.dropLast else t ++ [qc]

/-- `Cube.reverse_sequence` (`rubiks_cube.py` lines 165-181): split on
whitespace, reverse the token order, reverse each token, join with spaces. -/
def reverse_sequence (moves : String) : String :=
  String.mk (joinSpace (((splitWs moves.toList).reverse).map revTok))

/-! ## The `simplify_sequence` rewriting engine (`rubiks_cube.py` lines 183-229)

Each of the nine `re.sub` calls uses a pattern of the common shape

  `(?:^| ) GROUP [suffix/literal] SEPARATION BACKREF [literal/suffix] (?= |$)`

where SEPARATION is a non-greedy alternation, one branch per axis group
{L,R,M} / {U,E,D} / {F,S,B}, each branch guarded by a two-character
lookbehind and ranging over the characters of that group plus space,
apostrophe and the digit 2.  The embedding below implements exactly this
family with Python `re` semantics: leftmost match, alternation tried left to
right, non-greedy separation growing from the empty string, the suffix group
`( |$)` trying the space before the end anchor, and `re.sub` continuing the
scan at the end of each replaced match of the original string. -/

/-- The `( |$)` or `(')` suffix group of rules 6-9. -/
inductive SufSpec where
  | spaceOrEnd
  | quote
deriving DecidableEq, Repr

/-- Which replacement template a rule uses: `" \g<separation>"` (rules 1-3),
`" \g<char>2 \g<separation>"` (rules 4-5), or `triple_turn` (rules 6-9). -/
inductive ReplKind where
  | keepSep
  | fuseHalf
  | triple
deriving DecidableEq, Repr

/-- One `re.sub` rule of `simplify_sequence`. -/
structure SubRule where
  /-- the captured group is `(.2)` (rule 3) rather than `(.)` -/
  grpTwo : Bool
  /-- a suffix group immediately after the captured char (rules 6, 7) -/
  sufBefore : Option SufSpec
  /-- a literal character between the group and the separation -/
  afterGroup : Option Char
  /-- the second character of the separation lookbehinds -/
  lbSecond : Char
  /-- a literal character after the backreference -/
  afterBack : Option Char
  /-- a suffix group after the backreference (rules 8, 9) -/
  sufAfter : Option SufSpec
  repl : ReplKind
deriving Repr

/-- The three axis groups of the separation alternation, in pattern order. -/
def axisGroups : List (List Char) := [['L', 'R', 'M'], ['U', 'E', 'D'], ['F', 'S', 'B']]

/-- The characters a separation branch may range over: the group's letters
plus space, apostrophe and 2 (the class written `[LRM '2]` etc.). -/
def sepChars (grp : List Char) : List Char := grp ++ [' ', qc, '2']

/-- Python `.` (no DOTALL): any character but a newline. -/
def dotMatch (c : Char) : Bool := c ≠ '\n'

/-- Data of one successful rule match. -/
structure MatchData where
  /-- position just after the consumed match (the lookahead is zero-width) -/
  mend : Nat
  /-- the character captured by the group -/
  ch : Char
  /-- contents of the suffix group (empty, a space, or an apostrophe) -/
  sufStr : List Char
  /-- contents of the separation group -/
  sep : List Char
deriving Repr

/-- The replacement string of a match: `" " + sep`, `" c2 " + sep`, or
`triple_turn` (`rubiks_cube.py` lines 197-202), which yields
`" c " + sep` when the suffix group captured an apostrophe and
`" c'" + sep` otherwise. -/
def buildRepl (r : SubRule) (m : MatchData) : List Char :=
  match r.repl with
  | .keepSep => ' ' :: m.sep
  | .fuseHalf => ' ' :: m.ch :: '2' :: ' ' :: m.sep
  | .triple =>
    if m.sufStr = [qc] then ' ' :: m.ch :: ' ' :: m.sep
    else ' ' :: m.ch :: qc :: m.sep

/-- The `(?= |$)` lookahead. -/
def lookAheadOk (s : List Char) (i : Nat) : Bool :=
  s.get? i = some ' ' || i = s.length

/-- Match everything after the separation: the backreference, an optional
literal, an optional suffix group (space tried before the end anchor), and
the lookahead.  `m` is the position after the separation. -/
def matchTail (r : SubRule) (s : List Char) (c : Char) (sufStr : List Char)
    (sep : List Char) (m : Nat) : Option MatchData :=
  let bk : List Char := if r.grpTwo then [c, '2'] else [c]
  if (s.drop m).take bk.length = bk then
    let m1 := m + bk.length
    let afterLit : Option Nat :=
      match r.afterBack with
      | some ch => if s.get? m1 = some ch then some (m1 + 1) else none
      | none => some m1
    match afterLit with
    | none => none
    | some m2 =>
      match r.sufAfter with
      | none => if lookAheadOk s m2 then some ⟨m2, c, sufStr, sep⟩ else none
      | some .quote =>
        if s.get? m2 = some qc && lookAheadOk s (m2 + 1) then
          some ⟨m2 + 1, c, [qc], sep⟩
        else none
      | some .spaceOrEnd =>
        (if s.get? m2 = some ' ' && lookAheadOk s (m2 + 1) then
           some ⟨m2 + 1, c, [' '], sep⟩
         else none).orElse fun _ =>
          if m2 = s.length then some ⟨m2, c, [], sep⟩ else none
  else none

/-- Match the separation group starting at `q`: try the three axis-group
branches in pattern order; a branch applies when its two-character
lookbehind holds, and then extends non-greedily over its character class. -/
def matchSep (r : SubRule) (s : List Char) (c : Char) (sufStr : List Char)
    (q : Nat) : Option MatchData :=
  axisGroups.findSome? fun grp =>
    if 2 ≤ q && (s.get? (q - 2)).any (· ∈ grp) && s.get? (q - 1) = some r.lbSecond then
      (List.range (s.length - q + 1)).findSome? fun n =>
        let sep := (s.drop q).take n
        if sep.all (· ∈ sepChars grp) then matchTail r s c sufStr sep (q + n)
        else none
    else none

/-- Match the captured group and what sits between it and the separation. -/
def matchHead (r : SubRule) (s : List Char) (hp : Nat) : Option MatchData :=
  match s.get? hp with
  | none => none
  | some c =>
    if dotMatch c then
      let afterGrp : Option Nat :=
        if r.grpTwo then (if s.get? (hp + 1) = some '2' then some (hp + 2) else none)
        else some (hp + 1)
      match afterGrp with
      | none => none
      | some m0 =>
        let withSuf : Option MatchData :=
          match r.sufBefore with
          | none => matchLit r s c [] m0
          | some .quote =>
            if s.get? m0 = some qc then matchLit r s c [qc] (m0 + 1) else none
          | some .spaceOrEnd =>
            (if s.get? m0 = some ' ' then matchLit r s c [' '] (m0 + 1)
             else none).orElse fun _ =>
              if m0 = s.length then matchLit r s c [] m0 else none
        withSuf
    else none
where
  /-- the optional literal before the separation, then the separation -/
  matchLit (r : SubRule) (s : List Char) (c : Char) (sufStr : List Char)
      (m : Nat) : Option MatchData :=
    match r.afterGroup with
    | some ch => if s.get? m = some ch then matchSep r s c sufStr (m + 1) else none
    | none => matchSep r s c sufStr m

/-- Try a full rule match starting at `p`: the `(?:^| )` boundary matches
empty at the true string start, else consumes one space. -/
def tryRuleAt (r : SubRule) (s : List Char) (p : Nat) : Option MatchData :=
  (if p = 0 then matchHead r s 0 else none).orElse fun _ =>
    if s.get? p = some ' ' then matchHead r s (p + 1) else none

/-- The leftmost match at a position at or after `start`, returned with its
start position. -/
def findMatchFrom (r : SubRule) (s : List Char) (start : Nat) :
    Option (Nat × MatchData) :=
  (List.range (s.length + 1 - start)).findSome? fun d =>
    (tryRuleAt r s (start + d)).map fun m => (start + d, m)

/-- `re.sub` over the suffix of `s` beginning at `p`: emit up to the match,
emit the replacement, continue at the match end (all positions in the
original string).  Every match consumes the backreference, so positions
strictly increase and the fuel `s.length + 1` is never exhausted. -/
def pySubFrom (r : SubRule) (s : List Char) : Nat → Nat → List Char
  | 0, p => s.drop p
  | fuel + 1, p =>
    match findMatchFrom r s p with
    | none => s.drop p
    | some (mpos, m) =>
      ((s.drop p).take (mpos - p)) ++ buildRepl r m ++ pySubFrom r s fuel m.mend

/-- One full `re.sub(pattern, repl, s)`. -/
def pySub (r : SubRule) (s : List Char) : List Char :=
  pySubFrom r s (s.length + 1) 0

/-- Rule 1 (`rubiks_cube.py` line 208): remove `N' <sep> N`. -/
def subRule1 : SubRule :=
  { grpTwo := false, sufBefore := none, afterGroup := some qc, lbSecond := qc,
    afterBack := none, sufAfter := none, repl := .keepSep }

/-- Rule 2 (line 210): remove `N <sep> N'`. -/
def subRule2 : SubRule :=
  { grpTwo := false, sufBefore := none, afterGroup := some ' ', lbSecond := ' ',
    afterBack := some qc, sufAfter := none, repl := .keepSep }

/-- Rule 3 (line 212): remove `N2 <sep> N2`. -/
def subRule3 : SubRule :=
  { grpTwo := true, sufBefore := none, afterGroup := none, lbSecond := '2',
    afterBack := none, sufAfter := none, repl := .keepSep }

/-- Rule 4 (line 214): fuse `N <sep> N` to `N2 <sep>`. -/
def subRule4 : SubRule :=
  { grpTwo := false, sufBefore := none, afterGroup := some ' ', lbSecond := ' ',
    afterBack := none, sufAfter := none, repl := .fuseHalf }

/-- Rule 5 (line 216): fuse `N' <sep> N'` to `N2 <sep>`. -/
def subRule5 : SubRule :=
  { grpTwo := false, sufBefore := none, afterGroup := some qc, lbSecond := qc,
    afterBack := some qc, sufAfter := none, repl := .fuseHalf }

/-- Rule 6 (line 218): rewrite `N <sep> N2` via `triple_turn`. -/
def subRule6 : SubRule :=
  { grpTwo := false, sufBefore := some .spaceOrEnd, afterGroup := none,
    lbSecond := ' ', afterBack := some '2', sufAfter := none, repl := .triple }

/-- Rule 7 (line 220): rewrite `N' <sep> N2` via `triple_turn`. -/
def subRule7 : SubRule :=
  { grpTwo := false, sufBefore := some .quote, afterGroup := none,
    lbSecond := qc, afterBack := some '2', sufAfter := none, repl := .triple }

/-- Rule 8 (line 222): rewrite `N2 <sep> N` via `triple_turn`. -/
def subRule8 : SubRule :=
  { grpTwo := false, sufBefore := none, afterGroup := some '2', lbSecond := '2',
    afterBack := none, sufAfter := some .spaceOrEnd, repl := .triple }

/-- Rule 9 (line 224): rewrite `N2 <sep> N'` via `triple_turn`. -/
def subRule9 : SubRule :=
  { grpTwo := false, sufBefore := none, afterGroup := some '2', lbSecond := '2',
    afterBack := none, sufAfter := some .quote, repl := .triple }

/-- The nine rules in program order. -/
def simplifyRules : List SubRule :=
  [subRule1, subRule2, subRule3, subRule4, subRule5, subRule6, subRule7,
   subRule8, subRule9]

/-- Helper for `collapseWs`; the flag records whether the previous character
was whitespace. -/
def collapseWsAux : List Char → Bool → List Char
  | [], _ => []
  | c :: rest, inWs =>
    if isPyWs c then
      if inWs then collapseWsAux rest true else ' ' :: collapseWsAux rest true
    else c :: collapseWsAux rest false

/-- `re.sub(r"\s+", " ", seq)` (line 226). -/
def collapseWs (cs : List Char) : List Char := collapseWsAux cs false

/-- One pass of the `while` body: the nine substitutions in order, then the
whitespace cleanup. -/
def simplifyBody (s : List Char) : List Char :=
  collapseWs (simplifyRules.foldl (fun acc r => pySub r acc) s)

/-- The fixpoint loop of `simplify_sequence` (line 206): run the body until a
pass leaves the string unchanged.  `prev` starts as the empty string exactly
as in the source, so an empty input skips the body.  The fuel only bounds
the number of passes; it is generous enough that every evaluation in this
file reaches the fixpoint. -/
def simplifyLoop : Nat → List Char → List Char → List Char
  | 0, _, seq => seq
  | fuel + 1, prev, seq =>
    if prev = seq then seq else simplifyLoop fuel seq (simplifyBody seq)

/-- `Cube.simplify_sequence` (`rubiks_cube.py` lines 183-229). -/
def simplify_sequence (s : String) : String :=
  String.mk (pyStrip (simplifyLoop (s.length * 2 + 16) [] s.toList))

/-! ## Cube state and the move executor -/

/-- The mutable state of a cube instance relevant to moves: the history string
`previous_moves` and the grid (`rubiks_cube.py` line 109 and the piece list). -/
structure CubeState where
  previous_moves : String
  grid : Grid
deriving DecidableEq

/-- A freshly constructed 3x3x3 cube: empty history, solved grid. -/
def freshState : CubeState := ⟨"", initGrid⟩

/-- `repeat` physical turns of the canonical move (the loop at
`three_by_three.py` lines 168-173; the direction is re-read from the token
each iteration and never changes). -/
def iterateTurns (letter : Char) (prime : Bool) : Nat → Grid → Grid
  | 0, g => g
  | n + 1, g => iterateTurns letter prime n (rotate_layer letter prime g)

/-- `ThreeByThree.do_move` (`three_by_three.py` lines 139-173): extract the
repeat count modulo 4 from the first digit run (default 1); return unchanged
on 0; canonicalize the token (1 keeps the mark, 2 forces `<letter>2`,
3 flips the mark and turns once); append the canonical token to
`previous_moves`; re-simplify the history; then perform the physical turns.
The `await asyncio.sleep(0.2)` yield point after each turn has no effect on
the state and is dropped. -/
def do_move (st : CubeState) (move : String) : CubeState :=
  let mv := move.toList
  let rep0 : Nat :=
    match firstDigitRun mv with
    | some ds => digitsVal ds % 4
    | none => 1
  if rep0 = 0 then st
  else
    let canon : List Char :=
      if rep0 = 1 then (if endsQuote mv then headStr mv ++ [qc] else headStr mv)
      else if rep0 = 2 then headStr mv ++ ['2']
      else (if endsQuote mv then headStr mv else headStr mv ++ [qc])
    let rep : Nat := if rep0 = 3 then 1 else rep0
    let hist := simplify_sequence (st.previous_moves ++ " " ++ String.mk canon)
    let letter := canon.headD ' '
    { previous_moves := hist,
      grid := iterateTurns letter (endsQuote canon) rep st.grid }

/-- The move alphabet `[LMRUEDFSB]` of the atomic-move grammar. -/
def alphabetChars : List Char := ['L', 'M', 'R', 'U', 'E', 'D', 'F', 'S', 'B']

/-- The atomic-move grammar of `do_sequence` (`rubiks_cube.py` line 529):
one alphabet letter, a digit run, an optional apostrophe. -/
def isAtomicTok (t : String) : Bool :=
  match t.toList with
  | [] => false
  | c :: rest =>
    (c ∈ alphabetChars) &&
      (let r := rest.dropWhile Char.isDigit
       r = [] || r = [qc])

/-- The macro table `sequence_map`, as an insertion-ordered association list
(Python dicts preserve insertion order, which the regex alternations rely
on).  Names are matched literally; the source splices them verbatim into its
patterns. -/
abbrev SeqMap := List (String × String)

/-- One alternative `^key\d*'?$` of the named-sequence grammar
(`rubiks_cube.py` line 535). -/
def keyInvocation (key : String) (t : String) : Bool :=
  (t.toList.take key.length = key.toList) &&
    (let r := (t.toList.drop key.length).dropWhile Char.isDigit
     r = [] || r = [qc])

/-- Whether the named-sequence `elif` branch is taken.  When the macro table
is empty, `"|".join([...])` produces the empty pattern, which `re.match`
matches against every token — so the branch is always taken. -/
def namedBranchTaken (smap : SeqMap) (t : String) : Bool :=
  smap.isEmpty || smap.any fun kv => keyInvocation kv.1 t

/-- One alternative `^key(?=[\d']|$)` of the name-extraction pattern in
`get_sequence` (`rubiks_cube.py` line 507). -/
def keyLookMatch (key : String) (t : String) : Bool :=
  (t.toList.take key.length = key.toList) &&
    (match (t.toList.drop key.length).head? with
     | none => true
     | some c => c.isDigit || c = qc)

/-- `Cube.get_sequence` (`rubiks_cube.py` lines 488-517): the repeat count is
the first digit run of the whole name (default 1, not reduced modulo 4); the
bound sequence comes from the first key whose `^key(?=[\d']|$)` alternative
matches; a trailing apostrophe on the invocation reverses the bound
sequence.  `none` models the two uncaught exceptions: with an empty table the
empty pattern matches, `.group()` returns the empty string and the lookup
raises `KeyError`; with no matching key `re.match` returns `None` and
`.group()` raises `AttributeError`. -/
def get_sequence (smap : SeqMap) (name : String) : Option (String × Nat) :=
  let rep : Nat :=
    match firstDigitRun name.toList with
    | some ds => digitsVal ds
    | none => 1
  if smap.isEmpty then none
  else
    match smap.find? (fun kv => keyLookMatch kv.1 name) with
    | none => none
    | some kv =>
      let sq := if endsQuote name.toList then reverse_sequence kv.2 else kv.2
      some (sq, rep)

/-- Result of a fueled `do_sequence` run: a final state, an uncaught
exception (`err`), or an exhausted recursion budget (`fuelOut`).  The source
bounds recursion only by the interpreter stack limit, so a run that yields
`fuelOut` for every budget diverges. -/
inductive ExecRes where
  | ok (st : CubeState)
  | err
  | fuelOut
deriving DecidableEq

/-- The `for _ in range(repeat)` loop of the named-sequence branch of
`do_sequence` (`rubiks_cube.py` lines 540-541): `n` sequential recursive
`do_sequence` calls, each performed by `run1`. -/
def repLoopF (run1 : CubeState -> ExecRes) : CubeState -> Nat -> ExecRes
  | st, 0 => .ok st
  | st, n + 1 =>
    match run1 st with
    | .ok st2 => repLoopF run1 st2 n
    | e => e

/-- The token loop of `Cube.do_sequence` (`rubiks_cube.py` lines 527-548).
Tokens are classified in source order: atomic move, named-sequence
invocation, invalid (reported and skipped).  In the named branch the source
computes `moves, repeat = self.get_sequence(move)` and then calls
`await self.do_sequence(move)` -- the *invocation token itself*, not the
resolved sequence -- `repeat` times; the embedding preserves this
faithfully.  `depthRun` performs one recursive `do_sequence` call (at one
less remaining recursion depth). -/
def doSeqListF (depthRun : CubeState -> String -> ExecRes) (smap : SeqMap) :
    CubeState -> List String -> ExecRes
  | st, [] => .ok st
  | st, tok :: rest =>
    if isAtomicTok tok then doSeqListF depthRun smap (do_move st tok) rest
    else if namedBranchTaken smap tok then
      match get_sequence smap tok with
      | none => .err
      | some (_resolved, rep) =>
        match repLoopF (fun s => depthRun s tok) st rep with
        | .ok st2 => doSeqListF depthRun smap st2 rest
        | e => e
    else doSeqListF depthRun smap st rest

/-- `Cube.do_sequence` (`rubiks_cube.py` lines 519-548), fueled by the
remaining recursion depth: a call with no remaining depth reports
`fuelOut`; otherwise the input is split on whitespace and the token loop
runs, with recursive calls made at one less depth. -/
def do_sequence : Nat -> SeqMap -> CubeState -> String -> ExecRes
  | 0, _, _, _ => .fuelOut
  | fuel + 1, smap, st, moves =>
    doSeqListF (do_sequence fuel smap) smap st ((splitWs moves.toList).map String.mk)

/-- `Cube.solve` (`rubiks_cube.py` lines 248-254): execute the reverse of the
entire current history. -/
def solveCube (fuel : Nat) (smap : SeqMap) (st : CubeState) : ExecRes :=
  do_sequence fuel smap st (reverse_sequence st.previous_moves)

/-- Project the final state out of a successful run (used to chain the
concrete executions in the theorems below; every chained run is proved to be
`ok`). -/
def stateOf (e : ExecRes) : CubeState :=
  match e with
  | .ok st => st
  | _ => freshState

/-! ## Claim theorems -/

/-- C2, counterexample: the claim says `simplify_sequence` maps the history
string R U R-prime to U; in fact the separation class of every rewrite rule
admits only tokens from the same axis group as the cancelling letter, U is
not in the {L,R,M} group, and the string is returned unchanged. -/
theorem c2_commuting_run_counterexample :
    simplify_sequence ("R U R" ++ qs) ≠ "U" := by decide

/-- C2, amended: `simplify_sequence` leaves R U R-prime unchanged (U belongs
to a different axis group, so the R pair does not cancel across it), maps
L R L-prime to R (L and R share the {L,R,M} axis group), and leaves
U R U-prime unchanged. -/
theorem c2_commuting_run_amended :
    simplify_sequence ("R U R" ++ qs) = "R U R" ++ qs ∧
    simplify_sequence ("L R L" ++ qs) = "R" ∧
    simplify_sequence ("U R U" ++ qs) = "U R U" ++ qs :=
  ⟨by decide, by decide, by decide⟩

/-- C3, counterexample: the claim says a half-turn token is its own reverse,
`reverse_sequence("U2") = "U2"`; in fact the per-token reverse appends an
apostrophe to every token that does not already end in one, so U2 maps to
U2-prime. -/
theorem c3_reverse_counterexample :
    reverse_sequence "U2" = "U2" ++ qs ∧ ("U2" ++ qs : String) ≠ "U2" :=
  ⟨by decide, by decide⟩

/-- C9: a freshly constructed 3x3x3 cube reports `is_solved() == true`, and
after exactly one atomic move — any of the nine letters, with or without an
apostrophe — it reports `is_solved() == false`. -/
theorem c9_solved_predicate :
    is_solved freshState.grid = true ∧
    ((alphabetChars.flatMap fun c => [String.mk [c], String.mk [c, qc]]).all
        fun tok => !(is_solved (do_move freshState tok).grid)) = true :=
  ⟨by decide, by decide⟩

/-- C5: for every letter of the nine-letter alphabet, applying the atomic
move four times to a freshly constructed cube returns the grid to the solved
(initial) state, and applying it twice produces exactly the grid of the
half-turn form `<letter>2` applied once. -/
theorem c5_order_four :
    ∀ c ∈ alphabetChars,
      (do_move (do_move (do_move (do_move freshState (String.mk [c]))
          (String.mk [c])) (String.mk [c])) (String.mk [c])).grid = initGrid ∧
      (do_move (do_move freshState (String.mk [c])) (String.mk [c])).grid
        = (do_move freshState (String.mk [c] ++ "2")).grid := by decide

/-- Witness for C5 at the letter U. -/
theorem c5_order_four_witness :
    'U' ∈ alphabetChars ∧
    ((do_move (do_move (do_move (do_move freshState (String.mk ['U']))
        (String.mk ['U'])) (String.mk ['U'])) (String.mk ['U'])).grid = initGrid ∧
     (do_move (do_move freshState (String.mk ['U'])) (String.mk ['U'])).grid
       = (do_move freshState (String.mk ['U'] ++ "2")).grid) :=
  ⟨by decide, c5_order_four 'U' (by decide)⟩

/-- State after `do_sequence("R")` on a fresh cube. -/
def c4sA : CubeState := stateOf (do_sequence 1 [] freshState "R")

/-- State after a further `do_sequence("U")`. -/
def c4sB : CubeState := stateOf (do_sequence 1 [] c4sA "U")

/-- State after `solve()` from `c4sB`. -/
def c4sC : CubeState := stateOf (solveCube 1 [] c4sB)

/-- C4, counterexample: the claim asserts that for every sequence S of atomic
moves executed from some starting grid state, S followed by `solve()`
restores the grid to its prior state and `is_solved()` to its prior value.
Starting from the state reached by `do_sequence("R")` (unsolved, history R)
and executing S = "U", `solve()` replays the reverse of the **entire**
history, returning the cube to the construction state: `is_solved()` comes
back `true` and the grid differs from the prior (pre-S) grid, contradicting
the claim. -/
theorem c4_roundtrip_counterexample :
    do_sequence 1 [] freshState "R" = .ok c4sA ∧
    is_solved c4sA.grid = false ∧
    do_sequence 1 [] c4sA "U" = .ok c4sB ∧
    solveCube 1 [] c4sB = .ok c4sC ∧
    is_solved c4sC.grid = true ∧
    c4sC.grid ≠ c4sA.grid :=
  ⟨by decide, by decide, by decide, by decide, by decide, by decide⟩

/-- State after `do_sequence("R U F'")` on a fresh cube. -/
def c4tA : CubeState := stateOf (do_sequence 1 [] freshState ("R U F" ++ qs))

/-- State after `solve()` from `c4tA`. -/
def c4tB : CubeState := stateOf (solveCube 1 [] c4tA)

/-- C4, amended: from a freshly constructed (solved) cube,
`do_sequence("R U F'")` followed by `solve()` restores the grid to its
initial state and `is_solved()` returns `true`. -/
theorem c4_roundtrip_amended :
    do_sequence 1 [] freshState ("R U F" ++ qs) = .ok c4tA ∧
    solveCube 1 [] c4tA = .ok c4tB ∧
    c4tB.grid = initGrid ∧
    is_solved c4tB.grid = true :=
  ⟨by decide, by decide, by decide, by decide⟩

/-- A one-entry macro table binding the name A to the sequence U (a minimal
failing input for claim C1). -/
def demoSeqMap : SeqMap := [("A", "U")]

/-- C1: the claim says a valid macro invocation resolves to its bound token
string and executes it exactly `repeat` times, terminating afterwards.  The
named branch of `do_sequence` instead recurses on the invocation token
itself (`await self.do_sequence(move)` at `rubiks_cube.py` line 541, with
the resolved `moves` from `get_sequence` never used), so invoking the macro
A (bound to U) exhausts every recursion budget: the run diverges and the
bound sequence is never executed. -/
theorem c1_macro_invocation_diverges (fuel : Nat) (st : CubeState) :
    do_sequence fuel demoSeqMap st "A" = .fuelOut := by
  induction fuel generalizing st with
  | zero => rfl
  | succ f ih =>
    show (match (match do_sequence f demoSeqMap st "A" with
                 | .ok st2 => repLoopF (fun s => do_sequence f demoSeqMap s "A") st2 0
                 | e => e) with
          | .ok st2 => doSeqListF (do_sequence f demoSeqMap) demoSeqMap st2 []
          | e => e) = .fuelOut
    rw [ih st]

/-- C7, counterexample: with an empty macro table, the joined named-sequence
pattern is the empty pattern, which matches every token; the token Q (which
matches neither the atomic grammar nor any known macro grammar — there are
none) therefore enters the named branch, where `get_sequence` raises
`KeyError` on the empty-string lookup.  The run aborts with an uncaught
exception instead of skipping the token and continuing with the state
untouched. -/
theorem c7_invalid_token_counterexample :
    do_sequence 1 [] freshState "Q" = .err ∧ ExecRes.err ≠ .ok freshState :=
  ⟨by decide, by decide⟩

/-- C7, amended: provided the macro table is non-empty, a token matching
neither the atomic-move grammar nor any named-sequence alternative is
reported and skipped: the run over any token list containing it equals the
run over the same list with the token removed, so the rejected token changes
neither the grid nor the history and processing continues with the next
token. -/
theorem c7_invalid_token_skipped (fuel : Nat) (smap : SeqMap) (st : CubeState)
    (pre post : List String) (t : String)
    (hne : smap ≠ []) (hat : isAtomicTok t = false)
    (hmac : (smap.any fun kv => keyInvocation kv.1 t) = false) :
    doSeqListF (do_sequence fuel smap) smap st (pre ++ t :: post)
      = doSeqListF (do_sequence fuel smap) smap st (pre ++ post) := by
  have hemp : smap.isEmpty = false := by
    cases smap with
    | nil => exact absurd rfl hne
    | cons a l => rfl
  induction pre generalizing st with
  | nil =>
    simp only [List.nil_append, doSeqListF, hat, namedBranchTaken, hemp, hmac,
      Bool.false_or, Bool.false_eq_true, if_false]
  | cons tok pre ih =>
    simp only [List.cons_append, doSeqListF]
    by_cases h1 : isAtomicTok tok
    · simp only [h1, if_true]
      exact ih (do_move st tok)
    · by_cases h2 : namedBranchTaken smap tok
      · simp only [h1, h2, if_true, if_false, Bool.false_eq_true]
        cases hgs : get_sequence smap tok with
        | none => rfl
        | some pr =>
          obtain ⟨sq, rep⟩ := pr
          show (match repLoopF (fun s => do_sequence fuel smap s tok) st rep with
                | ExecRes.ok st2 =>
                  doSeqListF (do_sequence fuel smap) smap st2 (pre ++ t :: post)
                | e => e)
              = (match repLoopF (fun s => do_sequence fuel smap s tok) st rep with
                | ExecRes.ok st2 =>
                  doSeqListF (do_sequence fuel smap) smap st2 (pre ++ post)
                | e => e)
          cases repLoopF (fun s => do_sequence fuel smap s tok) st rep with
          | ok st2 => exact ih st2
          | err => rfl
          | fuelOut => rfl
      · simp only [h1, h2, if_false, Bool.false_eq_true]
        exact ih st

/-- Witness for C7 at a concrete invalid token X between two atomic moves,
with the one-entry table `demoSeqMap`. -/
theorem c7_invalid_token_skipped_witness :
    demoSeqMap ≠ [] ∧ isAtomicTok "X" = false ∧
    (demoSeqMap.any fun kv => keyInvocation kv.1 "X") = false ∧
    doSeqListF (do_sequence 1 demoSeqMap) demoSeqMap freshState ["U", "X", "R"]
      = doSeqListF (do_sequence 1 demoSeqMap) demoSeqMap freshState ["U", "R"] :=
  ⟨by decide, by decide, by decide,
    c7_invalid_token_skipped 1 demoSeqMap freshState ["U"] ["R"] "X"
      (by decide) (by decide) (by decide)⟩

/-- Splitting after a run of non-whitespace characters accumulates them into
the current token. -/
theorem splitWsAux_append_nonws (t : List Char)
    (hnws : ∀ c ∈ t, isPyWs c = false) (cs acc : List Char) :
    splitWsAux (t ++ cs) acc = splitWsAux cs (t.reverse ++ acc) := by
  induction t generalizing acc with
  | nil => simp
  | cons c t ih =>
    have hc : isPyWs c = false := hnws c (by simp)
    show splitWsAux (c :: (t ++ cs)) acc = _
    simp only [splitWsAux, hc, Bool.false_eq_true, if_false]
    rw [ih (fun d hd => hnws d (by simp [hd])) (c :: acc)]
    simp [List.append_assoc]

/-- Python `split` is a left inverse of `" ".join` on lists of non-empty
whitespace-free tokens. -/
theorem splitWs_joinSpace (ts : List (List Char))
    (h : ∀ t ∈ ts, t ≠ [] ∧ ∀ c ∈ t, isPyWs c = false) :
    splitWs (joinSpace ts) = ts := by
  induction ts with
  | nil => rfl
  | cons t ts ih =>
    obtain ⟨hne, hnws⟩ := h t (by simp)
    have hrevne : t.reverse.isEmpty = false := by
      cases htl : t.reverse with
      | nil => exact absurd (by simpa using htl) hne
      | cons a l => rfl
    cases ts with
    | nil =>
      show splitWsAux (joinSpace [t]) [] = [t]
      have h0 : joinSpace [t] = t ++ [] := by simp [joinSpace]
      rw [h0, splitWsAux_append_nonws t hnws [] []]
      show (if (t.reverse ++ []).isEmpty then [] else [(t.reverse ++ []).reverse]) = [t]
      simp [hrevne]
    | cons t2 ts2 =>
      show splitWsAux (joinSpace (t :: t2 :: ts2)) [] = t :: t2 :: ts2
      have h0 : joinSpace (t :: t2 :: ts2) = t ++ (' ' :: joinSpace (t2 :: ts2)) := rfl
      rw [h0, splitWsAux_append_nonws t hnws _ []]
      show splitWsAux (' ' :: joinSpace (t2 :: ts2)) (t.reverse ++ []) = t :: t2 :: ts2
      have hsp : isPyWs ' ' = true := rfl
      simp only [splitWsAux, hsp, if_true, List.append_nil, hrevne,
        Bool.false_eq_true, if_false, List.reverse_reverse]
      rw [show splitWsAux (joinSpace (t2 :: ts2)) [] = splitWs (joinSpace (t2 :: ts2)) from rfl,
        ih (fun u hu => h u (by simp [hu]))]

/-- C3, amended: on every space-joined list of non-empty whitespace-free
tokens, `reverse_sequence` reverses the token order and reverses each token,
where the per-token reverse `revTok` drops a trailing apostrophe when
present and otherwise appends one — including on half-turn tokens, so U2
reverses to U2-prime rather than to itself. -/
theorem c3_reverse_amended (ts : List (List Char))
    (h : ∀ t ∈ ts, t ≠ [] ∧ ∀ c ∈ t, isPyWs c = false) :
    reverse_sequence (String.mk (joinSpace ts))
      = String.mk (joinSpace ((ts.reverse).map revTok)) := by
  unfold reverse_sequence
  have h1 : (String.mk (joinSpace ts)).toList = joinSpace ts := rfl
  rw [h1, splitWs_joinSpace ts h]

/-- Witness for C3 at the two-token sequence U2 F-prime. -/
theorem c3_reverse_amended_witness :
    (∀ t ∈ [['U', '2'], ['F', qc]], t ≠ [] ∧ ∀ c ∈ t, isPyWs c = false) ∧
    reverse_sequence (String.mk (joinSpace [['U', '2'], ['F', qc]]))
      = String.mk (joinSpace (([['U', '2'], ['F', qc]].reverse).map revTok)) :=
  ⟨by decide, c3_reverse_amended [['U', '2'], ['F', qc]] (by decide)⟩

/-- The list of piece ids occupying slots 0..26 of a grid. -/
def idsOf (g : Grid) : List Nat := (List.finRange 27).map fun i => (g i).id

/-- The slot a given slot draws its piece from under one ring reassignment
(the index-level shadow of the shift in `rotateRing`). -/
def srcIdxRing (prime : Bool) (ring : List (Fin 27)) (i : Fin 27) : Fin 27 :=
  if ring.length > 1 then
    match firstIdx? i ring with
    | some k => (shiftList ring (shiftAmt prime ring.length)).getD k i
    | none => i
  else i

/-- The slot a given slot draws its piece from under a whole layer turn
(rings are processed left to right on the grid, hence composed right to
left on indices). -/
def srcIdx (l : Char) (p : Bool) (i : Fin 27) : Fin 27 :=
  (layersOf l).foldr (fun ring j => srcIdxRing p ring j) i

/-- The 27 source slots of a layer turn, in slot order. -/
def srcList (l : Char) (p : Bool) : List (Fin 27) :=
  (List.finRange 27).map (srcIdx l p)

/-- One layer turn permutes the piece ids of the grid: the id list after
`rotate_layer` is a permutation of the id list before, for every grid.
Piece orientation updates never touch the id, and the ring reassignment
reads the grid through the permutation `srcIdx`. -/
theorem idsOf_perm_rotate (l : Char) (p : Bool) (g : Grid) :
    (idsOf (rotate_layer l p g)).Perm (idsOf g) := by
  have key : ∀ σl : List (Fin 27), σl.Perm (List.finRange 27) →
      ∀ g2 : Grid, idsOf g2 = σl.map (fun j => (g j).id) →
      (idsOf g2).Perm (idsOf g) := by
    intro σl hσ g2 he
    rw [he]
    exact hσ.map _
  by_cases h1 : l = 'U'
  · subst h1; cases p
    · exact key (srcList 'U' false) (by decide) _ rfl
    · exact key (srcList 'U' true) (by decide) _ rfl
  by_cases h2 : l = 'F'
  · subst h2; cases p
    · exact key (srcList 'F' false) (by decide) _ rfl
    · exact key (srcList 'F' true) (by decide) _ rfl
  by_cases h3 : l = 'L'
  · subst h3; cases p
    · exact key (srcList 'L' false) (by decide) _ rfl
    · exact key (srcList 'L' true) (by decide) _ rfl
  by_cases h4 : l = 'D'
  · subst h4; cases p
    · exact key (srcList 'D' false) (by decide) _ rfl
    · exact key (srcList 'D' true) (by decide) _ rfl
  by_cases h5 : l = 'B'
  · subst h5; cases p
    · exact key (srcList 'B' false) (by decide) _ rfl
    · exact key (srcList 'B' true) (by decide) _ rfl
  by_cases h6 : l = 'R'
  · subst h6; cases p
    · exact key (srcList 'R' false) (by decide) _ rfl
    · exact key (srcList 'R' true) (by decide) _ rfl
  by_cases h7 : l = 'E'
  · subst h7; cases p
    · exact key (srcList 'E' false) (by decide) _ rfl
    · exact key (srcList 'E' true) (by decide) _ rfl
  by_cases h8 : l = 'S'
  · subst h8; cases p
    · exact key (srcList 'S' false) (by decide) _ rfl
    · exact key (srcList 'S' true) (by decide) _ rfl
  by_cases h9 : l = 'M'
  · subst h9; cases p
    · exact key (srcList 'M' false) (by decide) _ rfl
    · exact key (srcList 'M' true) (by decide) _ rfl
  · have hz : layersOf l = [] := by
      simp [layersOf, h1, h2, h3, h4, h5, h6, h7, h8, h9]
    unfold rotate_layer
    rw [hz]
    exact List.Perm.refl _

/-- An arbitrary sequence of layer turns, as (letter, prime) pairs driven
through `rotate_layer` (letters outside the table have an empty ring list
and act as the identity, mirroring that `do_sequence` only ever passes the
nine alphabet letters). -/
def applyTurns (mvs : List (Char × Bool)) (g : Grid) : Grid :=
  mvs.foldl (fun acc m => rotate_layer m.1 m.2 acc) g

/-- Id-multiset preservation extends to every turn sequence and grid. -/
theorem idsOf_perm_applyTurns (mvs : List (Char × Bool)) :
    ∀ g : Grid, (idsOf (applyTurns mvs g)).Perm (idsOf g) := by
  induction mvs with
  | nil => exact fun g => List.Perm.refl _
  | cons m mvs ih =>
    intro g
    exact (ih (rotate_layer m.1 m.2 g)).trans (idsOf_perm_rotate m.1 m.2 g)

/-- C8: for every sequence of layer turns applied to a constructed cube, the
multiset of piece ids occupying the slots is a permutation of the initial
one (no piece reference is duplicated or dropped), and the resulting id
list has no duplicates — every piece occupies exactly one slot. -/
theorem c8_slot_permutation (mvs : List (Char × Bool)) :
    (idsOf (applyTurns mvs initGrid)).Perm (idsOf initGrid) ∧
    (idsOf (applyTurns mvs initGrid)).Nodup :=
  ⟨idsOf_perm_applyTurns mvs initGrid,
   ((idsOf_perm_applyTurns mvs initGrid).nodup_iff).mpr (by decide)⟩

/-- An element not in a list has no first index in it. -/
theorem firstIdx?_eq_none {α : Type} [DecidableEq α] (a : α) (l : List α)
    (h : a ∉ l) : firstIdx? a l = none := by
  induction l with
  | nil => rfl
  | cons b l ih =>
    have hab : a ≠ b := fun hc => h (hc ▸ List.mem_cons_self b l)
    simp only [firstIdx?, hab, if_false]
    rw [ih (fun hc => h (List.mem_cons_of_mem b hc))]
    rfl

/-- A slot outside a ring is untouched by that ring's reassignment and
rotation. -/
theorem rotateRing_frame (mv : Char) (p : Bool) (g : Grid) (ring : List (Fin 27))
    (j : Fin 27) (hj : j ∉ ring) : rotateRing mv p g ring j = g j := by
  unfold rotateRing
  simp only [hj, if_false]
  split
  · simp only [firstIdx?_eq_none j ring hj]
  · rfl

/-- All slots belonging to some ring of a layer. -/
def layerSlots (l : Char) : List (Fin 27) := (layersOf l).flatten

/-- A slot in none of the processed rings is untouched by the ring fold. -/
theorem foldl_rings_frame (mv : Char) (p : Bool) (j : Fin 27) :
    ∀ (rings : List (List (Fin 27))) (g : Grid), (∀ r ∈ rings, j ∉ r) →
      (rings.foldl (rotateRing mv p) g) j = g j := by
  intro rings
  induction rings with
  | nil => exact fun g _ => rfl
  | cons r rs ih =>
    intro g hall
    show (rs.foldl (rotateRing mv p) (rotateRing mv p g r)) j = g j
    rw [ih (rotateRing mv p g r) (fun r2 hr2 => hall r2 (List.mem_cons_of_mem r hr2))]
    exact rotateRing_frame mv p g r j (hall r (List.mem_cons_self r rs))

/-- A slot outside every ring of a layer is untouched by `rotate_layer`. -/
theorem rotate_layer_frame (l : Char) (p : Bool) (g : Grid) (j : Fin 27)
    (hj : j ∉ layerSlots l) : rotate_layer l p g j = g j := by
  unfold rotate_layer
  refine foldl_rings_frame l p j (layersOf l) g (fun r hr hjr => hj ?_)
  exact List.mem_flatten.mpr ⟨r, hr, hjr⟩

/-- The frame property extends to any number of physical turns. -/
theorem iterateTurns_frame (letter : Char) (p : Bool) (j : Fin 27)
    (hj : j ∉ layerSlots letter) :
    ∀ (n : Nat) (g : Grid), iterateTurns letter p n g j = g j := by
  intro n
  induction n with
  | zero => exact fun g => rfl
  | succ n ih =>
    intro g
    show iterateTurns letter p n (rotate_layer letter p g) j = g j
    rw [ih (rotate_layer letter p g)]
    exact rotate_layer_frame letter p g j hj

/-- C10: executing an atomic move token through `do_move` changes nothing
but the history string and the pieces in the rings of the move letter's
layer: every slot outside `layers[X]` keeps the very same piece value —
same identity and same entire face-to-color mapping. -/
theorem c10_frame_property (st : CubeState) (tok : String)
    (hat : isAtomicTok tok = true)
    (j : Fin 27) (hj : j ∉ layerSlots (tok.toList.headD ' ')) :
    (do_move st tok).grid j = st.grid j := by
  cases hmv : tok.toList with
  | nil =>
    unfold isAtomicTok at hat
    rw [hmv] at hat
    exact absurd hat (by decide)
  | cons c rest =>
    rw [hmv] at hj
    have hcm : c ∈ alphabetChars := by
      unfold isAtomicTok at hat
      rw [hmv] at hat
      simp only [Bool.and_eq_true, decide_eq_true_eq] at hat
      exact hat.1
    have hcq : c ≠ qc := by
      intro hcc
      rw [hcc] at hcm
      revert hcm
      decide
    have hqc : endsQuote [c] = false := by
      simp [endsQuote, hcq]
    unfold do_move
    rw [hmv]
    dsimp only
    split
    · rfl
    · split
      · split
        · exact iterateTurns_frame c true j hj _ st.grid
        · rw [show headStr (c :: rest) = [c] from rfl, hqc]
          exact iterateTurns_frame c false j hj _ st.grid
      · split
        · exact iterateTurns_frame c false j hj _ st.grid
        · split
          · rw [show headStr (c :: rest) = [c] from rfl, hqc]
            exact iterateTurns_frame c false j hj _ st.grid
          · exact iterateTurns_frame c true j hj _ st.grid

/-- Witness for C10: the token R on a fresh cube leaves slot 0 (a slot of
the L layer, outside every R ring) unchanged. -/
theorem c10_frame_property_witness :
    isAtomicTok "R" = true ∧
    (0 : Fin 27) ∉ layerSlots ("R".toList.headD ' ') ∧
    (do_move freshState "R").grid 0 = freshState.grid 0 :=
  ⟨by decide, by decide,
    c10_frame_property freshState "R" (by decide) 0 (by decide)⟩

/-- `takeWhile` passes over a block that satisfies the predicate. -/
theorem takeWhile_append_of_all {p : Char → Bool} (ds rest : List Char)
    (h : ∀ c ∈ ds, p c = true) :
    (ds ++ rest).takeWhile p = ds ++ rest.takeWhile p := by
  induction ds with
  | nil => rfl
  | cons d ds ih =>
    simp only [List.cons_append, List.takeWhile_cons, h d (by simp), if_true]
    rw [ih (fun c hc => h c (by simp [hc]))]

/-- The first digit run of `<letter><digits><mark>` is exactly the digit
block, provided the letter and the mark characters are not digits. -/
theorem firstDigitRun_shape (letter : Char) (ds mark : List Char)
    (hld : letter.isDigit = false)
    (hne : ds ≠ []) (hdig : ∀ c ∈ ds, c.isDigit = true)
    (hmk : ∀ c ∈ mark, c.isDigit = false) :
    firstDigitRun (letter :: ds ++ mark) = some ds := by
  unfold firstDigitRun
  rw [List.cons_append, List.dropWhile_cons]
  simp only [hld, Bool.not_false, if_true]
  cases ds with
  | nil => exact absurd rfl hne
  | cons d ds2 =>
    have hd : d.isDigit = true := hdig d (by simp)
    rw [List.cons_append, List.dropWhile_cons]
    simp only [hd, Bool.not_true, Bool.false_eq_true, if_false]
    have htw : ((d :: ds2) ++ mark).takeWhile Char.isDigit
        = (d :: ds2) ++ mark.takeWhile Char.isDigit :=
      takeWhile_append_of_all (d :: ds2) mark hdig
    have hmw : mark.takeWhile Char.isDigit = [] := by
      cases mark with
      | nil => rfl
      | cons m mark2 =>
        simp [List.takeWhile_cons, hmk m (by simp)]
    rw [show ((d :: ds2) ++ mark : List Char) = d :: (ds2 ++ mark) from rfl] at htw
    simp only [htw, hmw, List.append_nil]

/-- A token ending in a digit does not end with an apostrophe. -/
theorem endsQuote_digits (letter : Char) (ds : List Char)
    (hne : ds ≠ []) (hdig : ∀ c ∈ ds, c.isDigit = true) :
    endsQuote (letter :: ds) = false := by
  rcases List.eq_nil_or_concat ds with h | ⟨L, b, rfl⟩
  · exact absurd h hne
  · have hb : b.isDigit = true := hdig b (by simp [List.concat_eq_append])
    have hbq : b ≠ qc := by
      intro hc
      rw [hc] at hb
      exact absurd hb (by decide)
    have hlast : (letter :: (L ++ [b])).getLast? = some b := by
      rw [show letter :: (L ++ [b]) = (letter :: L) ++ [b] from rfl]
      exact List.getLast?_concat _
    simp [endsQuote, List.concat_eq_append, hlast, hbq]

/-- A token with a trailing apostrophe ends with one. -/
theorem endsQuote_concat_quote (letter : Char) (ds : List Char) :
    endsQuote (letter :: ds ++ [qc]) = true := by
  have hlast : (letter :: (ds ++ [qc])).getLast? = some qc := by
    rw [show letter :: (ds ++ [qc]) = (letter :: ds) ++ [qc] from rfl]
    exact List.getLast?_concat _
  simp [endsQuote, hlast]

/-- C6: for an atomic token `<letter><digits><mark>` with explicit repeat
count n, `do_move` reduces r = n mod 4 and: r = 0 performs zero turns and
leaves state (history included) untouched; r = 1 appends the canonical token
`<letter><mark>` (keeping the original mark, the history then re-simplified)
and turns once in the mark direction; r = 2 appends `<letter>2` and performs
two forward quarter turns regardless of the original mark; r = 3 appends the
token with the opposite mark and performs one quarter turn in the flipped
direction. -/
theorem c6_do_move_canonicalization (st : CubeState) (tok : String)
    (letter : Char) (ds mark : List Char)
    (htok : tok.toList = letter :: ds ++ mark)
    (hl : letter ∈ alphabetChars)
    (hne : ds ≠ []) (hdig : ∀ c ∈ ds, c.isDigit = true)
    (hm : mark = [] ∨ mark = [qc]) :
    (digitsVal ds % 4 = 0 → do_move st tok = st) ∧
    (digitsVal ds % 4 = 1 → do_move st tok =
      { previous_moves := simplify_sequence
          (st.previous_moves ++ " " ++ String.mk (letter :: mark)),
        grid := rotate_layer letter (decide (mark = [qc])) st.grid }) ∧
    (digitsVal ds % 4 = 2 → do_move st tok =
      { previous_moves := simplify_sequence
          (st.previous_moves ++ " " ++ String.mk [letter, '2']),
        grid := rotate_layer letter false (rotate_layer letter false st.grid) }) ∧
    (digitsVal ds % 4 = 3 → do_move st tok =
      { previous_moves := simplify_sequence
          (st.previous_moves ++ " " ++ String.mk (letter :: (if mark = [] then [qc] else []))),
        grid := rotate_layer letter (decide (mark = [])) st.grid }) := by
  have hld : letter.isDigit = false := by fin_cases hl <;> decide
  have hlq : letter ≠ qc := by fin_cases hl <;> decide
  have hql : endsQuote [letter] = false := by simp [endsQuote, hlq]
  have hlq39 : ¬(letter = Char.ofNat 39) := hlq
  have hhd : headStr (letter :: ds ++ mark) = [letter] := by
    rw [List.cons_append]
    rfl
  rcases hm with hm | hm <;> subst hm
  · have hfd : firstDigitRun tok.toList = some ds := by
      rw [htok]
      exact firstDigitRun_shape letter ds [] hld hne hdig (by simp)
    have hq : endsQuote tok.toList = false := by
      rw [htok, List.append_nil]
      exact endsQuote_digits letter ds hne hdig
    refine ⟨fun hr => ?_, fun hr => ?_, fun hr => ?_, fun hr => ?_⟩ <;>
      · unfold do_move
        dsimp only
        rw [hfd, hq, htok, hhd]
        dsimp only
        rw [hr]
        simp [iterateTurns, hql, endsQuote, qc, decide_eq_false hlq, decide_eq_false hlq39]
  · have hfd : firstDigitRun tok.toList = some ds := by
      rw [htok]
      exact firstDigitRun_shape letter ds [qc] hld hne hdig (by decide)
    have hq : endsQuote tok.toList = true := by
      rw [htok]
      exact endsQuote_concat_quote letter ds
    refine ⟨fun hr => ?_, fun hr => ?_, fun hr => ?_, fun hr => ?_⟩ <;>
      · unfold do_move
        dsimp only
        rw [hfd, hq, htok, hhd]
        dsimp only
        rw [hr]
        simp [iterateTurns, hql, endsQuote, qc, decide_eq_false hlq, decide_eq_false hlq39]

/-- Witness for C6 at the token U5-prime on a fresh cube (r = 5 mod 4 = 1). -/
theorem c6_do_move_canonicalization_witness :
    ("U5" ++ qs).toList = 'U' :: ['5'] ++ [qc] ∧
    'U' ∈ alphabetChars ∧
    (['5'] : List Char) ≠ [] ∧
    (∀ c ∈ (['5'] : List Char), c.isDigit = true) ∧
    (([qc] : List Char) = [] ∨ ([qc] : List Char) = [qc]) ∧
    ((digitsVal ['5'] % 4 = 0 → do_move freshState ("U5" ++ qs) = freshState) ∧
     (digitsVal ['5'] % 4 = 1 → do_move freshState ("U5" ++ qs) =
       { previous_moves := simplify_sequence
           (freshState.previous_moves ++ " " ++ String.mk ('U' :: [qc])),
         grid := rotate_layer 'U' (decide (([qc] : List Char) = [qc])) freshState.grid }) ∧
     (digitsVal ['5'] % 4 = 2 → do_move freshState ("U5" ++ qs) =
       { previous_moves := simplify_sequence
           (freshState.previous_moves ++ " " ++ String.mk ['U', '2']),
         grid := rotate_layer 'U' false (rotate_layer 'U' false freshState.grid) }) ∧
     (digitsVal ['5'] % 4 = 3 → do_move freshState ("U5" ++ qs) =
       { previous_moves := simplify_sequence
           (freshState.previous_moves ++ " " ++
             String.mk ('U' :: (if ([qc] : List Char) = [] then [qc] else []))),
         grid := rotate_layer 'U' (decide (([qc] : List Char) = [])) freshState.grid })) :=
  ⟨by decide, by decide, by decide, by decide, by decide,
   c6_do_move_canonicalization freshState ("U5" ++ qs) 'U' ['5'] [qc]
     (by decide) (by decide) (by decide) (by decide) (by decide)⟩
